import Mathlib

/-!
# mem-fs-editor: copy-resolution, delete and commit engines, shallowly embedded

This file embeds the core of the `mem-fs-editor` repository (v11.1.4) in Lean 4:

* `copyAsync` / `_copySingleAsync` from `src/copy-async.ts` — the glob/store
  reconciliation that turns a copy request into a concrete per-file plan,
  together with the per-file async copy with append semantics;
* `deleteAction` from `src/actions/delete.ts` — the tombstoning delete engine;
* the commit/reconciliation engine, the append action, `_copySingle`,
  `_write`, the editor-level `exists` and the mem-fs store collaborator,
  which are not part of the provided sources and are therefore modelled from
  the specification (each such definition carries a
  `Modelled from the spec:` doc comment).

Modelling conventions (POSIX platform):
* paths are `String`s; all paths handled by the engines are already absolute,
  so `path.resolve` and `normalize-path` are the identity (`resolvePath`,
  `normalizePath` below record this choice explicitly);
* byte sequences (`Buffer`s) are `String`s;
* the external glob collaborator (globby / tinyglobby / multimatch /
  `isDynamicPattern`) is modelled at its interface (spec section 1 and 6) by a
  segment-wise matcher supporting the `*` metacharacter within a path segment;
* fallible operations return `Except`.
-/

/-- Paths, modelled as strings (POSIX, absolute). -/
abbrev FsPath := String

/-- File contents (byte sequences), modelled as strings. -/
abbrev Contents := String

/-- `path.resolve` on an already-absolute POSIX path: the identity. -/
def resolvePath (p : FsPath) : FsPath := p

/-- `normalize-path` on a POSIX path: the identity. -/
def normalizePath (p : FsPath) : FsPath := p

/-! ## The glob collaborator, modelled at its interface -/

/-- Split a character list into `/`-separated segments (accumulator-passing). -/
def splitSegsAux : List Char → List Char → List (List Char)
  | acc, [] => [acc.reverse]
  | acc, c :: rest =>
    if c = '/' then acc.reverse :: splitSegsAux [] rest
    else splitSegsAux (c :: acc) rest

/-- The `/`-separated segments of a path or pattern. -/
def segsOf (p : String) : List (List Char) := splitSegsAux [] p.data

/-- Fuel-driven matcher of one glob segment against one path segment.
`*` matches any (possibly empty) run of characters inside the segment.
The fuel `ps.length + cs.length + 1` always suffices, since every recursive
call shrinks `ps.length + cs.length`. -/
def globSegMatch : Nat → List Char → List Char → Bool
  | 0, _, _ => false
  | _ + 1, [], [] => true
  | _ + 1, [], _ :: _ => false
  | _ + 1, _ :: _, [] => false
  | f + 1, p :: ps, c :: cs =>
    if p = '*' then
      globSegMatch f ps (c :: cs) || globSegMatch f (p :: ps) cs
    else
      p = c && globSegMatch f ps cs

/-- A segment of only-`*`-or-literal pattern matches the empty remainder
only through trailing stars; handled by a separate empty-path case. -/
def globSegMatchEmpty : List Char → Bool
  | [] => true
  | p :: ps => p = '*' && globSegMatchEmpty ps

/-- Match one glob segment against one path segment (sufficient fuel). -/
def segMatch (ps cs : List Char) : Bool :=
  match ps, cs with
  | ps, [] => globSegMatchEmpty ps
  | ps, cs => globSegMatch (ps.length + cs.length + 1) ps cs

/-- Model of the glob collaborator's single-pattern match (`multimatch` /
`minimatch` restricted to the `*` metacharacter, no `**`): the pattern and the
path must have the same number of `/`-segments and each pattern segment must
match the corresponding path segment. -/
def globMatch (pat p : FsPath) : Bool :=
  let psegs := segsOf pat
  let fsegs := segsOf p
  psegs.length = fsegs.length &&
    (List.zip psegs fsegs).all fun sp => segMatch sp.1 sp.2

/-- Model of `isDynamicPattern`: the pattern contains a glob metacharacter
(model scope: `*`). -/
def isDynamicPattern (p : FsPath) : Bool := p.data.contains '*'

/-- `multimatch([p], patterns).length !== 0`: some pattern matches `p`. -/
def multimatchAny (p : FsPath) (patterns : List FsPath) : Bool :=
  patterns.any fun pat => globMatch pat p

/-- Modelled from the spec: `globify` from `util.ts` (not under the provided
sources) passes glob patterns and literal file paths through to the glob
library unchanged (the directory-to-`dir/**` expansion is outside the model
scope, which has no directory sources). -/
def globify (p : FsPath) : FsPath := p

/-! ## The data model: FileRecord, store, disk, editor -/

/-- The `state` of a record, spec section 3. -/
inductive FileState where
  | unmodified
  | modified
  | deleted
deriving DecidableEq, Repr

/-- FileRecord, the unit of store state (spec section 3): a canonical path,
contents or the `none` deletion-tombstone sentinel, a state, the provenance
history, and optional stat metadata (permission mode). -/
structure FileRecord where
  path : FsPath
  contents : Option Contents
  state : FileState
  history : List FsPath
  statMode : Option Nat
deriving DecidableEq, Repr

/-- The in-memory store: records in insertion order, keyed by `path`. -/
abbrev Store := List FileRecord

/-- `store.get`-style lookup: the first record with the given path. -/
def storeFind (s : Store) (p : FsPath) : Option FileRecord :=
  s.find? fun r => r.path = p

/-- `store.add`: replace the record under the same key, or append a new one.
Modelled from the spec (store interface, section 6): `add(record)` upserts by
canonical path, preserving insertion order of existing keys. -/
def storeAdd : Store → FileRecord → Store
  | [], f => [f]
  | r :: rs, f => if r.path = f.path then f :: rs else r :: storeAdd rs f

/-- One on-disk file: path, contents, permission mode. -/
structure DiskFile where
  path : FsPath
  contents : Contents
  mode : Nat
deriving DecidableEq, Repr

/-- The real filesystem: regular files plus a set of directory paths. -/
structure Disk where
  files : List DiskFile
  dirs : List FsPath
deriving DecidableEq, Repr

def Disk.findFile (d : Disk) (p : FsPath) : Option DiskFile :=
  d.files.find? fun f => f.path = p

def Disk.hasFile (d : Disk) (p : FsPath) : Bool := (d.findFile p).isSome

def Disk.isDir (d : Disk) (p : FsPath) : Bool := d.dirs.contains p

def Disk.contentsOf (d : Disk) (p : FsPath) : Option Contents :=
  (d.findFile p).map (·.contents)

def Disk.modeOf (d : Disk) (p : FsPath) : Option Nat :=
  (d.findFile p).map (·.mode)

/-- The editor handle: the store, the (im)mutability of the real filesystem
during copy/delete, and whether the underlying store exposes the
`existsInMemory` capability (absent on legacy stores; the sources access it
by optional chaining). -/
structure Editor where
  store : Store
  disk : Disk
  storeHasExistsInMemory : Bool
deriving DecidableEq, Repr

/-- `this.store.existsInMemory?.(p)`: `false` on a store lacking the
capability (optional chaining yields `undefined`), otherwise key presence. -/
def Editor.existsInMemoryQ (ed : Editor) (p : FsPath) : Bool :=
  ed.storeHasExistsInMemory && (storeFind ed.store p).isSome

/-- Modelled from the spec: `store.get` of the mem-fs collaborator (section 6
and the lifecycle of section 3) returns the loaded record, or autoloads a
fresh record from disk (contents `none` when the file does not exist). -/
def Editor.storeGet (ed : Editor) (p : FsPath) : FileRecord :=
  match storeFind ed.store p with
  | some r => r
  | none =>
    { path := p
      contents := ed.disk.contentsOf p
      state := .unmodified
      history := [p]
      statMode := ed.disk.modeOf p }

/-- Modelled from the spec: the editor-level `exists` action (not under the
provided sources): the path denotes an existing file when its store record
has non-null contents, or, with no loaded record, when a disk file exists. -/
def Editor.existsFile (ed : Editor) (p : FsPath) : Bool :=
  match storeFind ed.store p with
  | some r => r.contents.isSome
  | none => ed.disk.hasFile p

/-- Content of a path as the copy engine obtains it (spec section 4.4):
from the store record if present, else from disk. -/
def Editor.readContents (ed : Editor) (p : FsPath) : Option Contents :=
  match storeFind ed.store p with
  | some r => r.contents
  | none => ed.disk.contentsOf p

/-! ## The path resolver, modelled from the spec (util.ts is not under the
provided sources) -/

/-- Join `/`-separated segments back into a path string. -/
def joinSegs : List (List Char) → String
  | [] => ""
  | [s] => String.mk s
  | s :: rest => String.mk s ++ "/" ++ joinSegs rest

/-- Longest common leading run of two segment lists. -/
def commonSegs : List (List Char) → List (List Char) → List (List Char)
  | [], _ => []
  | _, [] => []
  | a :: as_, b :: bs => if a = b then a :: commonSegs as_ bs else []

/-- The base-directory segments contributed by one source: for a dynamic
pattern, the segments before the first segment containing a metacharacter;
for a literal path, its directory (all but the last segment). -/
def baseSegsOf (s : FsPath) : List (List Char) :=
  let segs := segsOf s
  if isDynamicPattern s then segs.takeWhile fun seg => ¬ seg.contains '*'
  else segs.dropLast

/-- Modelled from the spec: `getCommonPath` from `util.ts` (spec section 4.1)
computes the common base directory across the sources, used to reconstruct
the relative destination layout. -/
def getCommonPath : FsPath ⊕ List FsPath → FsPath
  | .inl f => joinSegs (baseSegsOf f)
  | .inr [] => ""
  | .inr (f :: fs) => joinSegs (fs.foldl (fun acc g => commonSegs acc (baseSegsOf g)) (baseSegsOf f))

/-- Strip a leading segment run, if it is one. -/
def dropSegsOf : List (List Char) → List (List Char) → Option (List (List Char))
  | [], fs => some fs
  | _ :: _, [] => none
  | b :: bs, f :: fs => if b = f then dropSegsOf bs fs else none

/-- `path.relative(base, p)` in the model: strip the base directory when it
is a segment prefix of `p`, else return `p` unchanged. -/
def relativeTo (base p : FsPath) : FsPath :=
  match dropSegsOf (segsOf base) (segsOf p) with
  | some rest => joinSegs rest
  | none => p

/-- `path.join(to, rel)` for a relative `rel`. -/
def joinPath (dst rel : FsPath) : FsPath :=
  if rel = "" then dst else dst ++ "/" ++ rel

/-- Modelled from the spec: `resolveGlobOptions` from `util.ts`; per spec
section 4.2, single-literal (file) treatment is preferred only when no source
is a dynamic pattern, and the sources additionally drop the preference when
caller glob options are present. -/
def preferFilesOf (hasDynamicPattern hasGlobOptions : Bool) : Bool :=
  !hasDynamicPattern && !hasGlobOptions

/-! ## The copy engine: options, errors, resolution pipeline and planner
(embedding of `copyAsync`, `src/copy-async.ts` lines 54-147) -/

/-- The errors the copy engine can raise (spec section 7): no source matched,
multi-file destination is not a directory, append against an incompatible
store, and a propagated filesystem error. -/
inductive CopyError where
  | noMatch
  | destNotDir
  | incompatibleStore
  | ioError
deriving DecidableEq, Repr

/-- Options of `copyAsync` and `_copySingleAsync`. The `processFile` hook is
modelled as a total content transformer guarded by `hasProcessFile` (in the
sources the hook is optional); glob options are modelled by their presence
flag, which is all the resolution logic inspects. -/
structure CopyAsyncOptions where
  ignoreNoMatch : Bool := false
  append : Bool := false
  hasProcessFile : Bool := false
  processFile : FsPath → Contents := fun _ => ""
  hasGlobOptions : Bool := false
  processDestinationPath : Option (FsPath → FsPath) := none

/-- One planned per-file copy: source, rendered destination, and whether the
source is a store (virtual, `_copySingle`) or a disk (`_copySingleAsync`)
match. -/
structure PlannedCopy where
  src : FsPath
  dest : FsPath
  virtual : Bool
deriving DecidableEq, Repr

/-- The source list (`resolveFromPaths`: each source resolves to itself in
the absolute-path model). -/
def sourcesOf : FsPath ⊕ List FsPath → List FsPath
  | .inl f => [f]
  | .inr l => l

/-- Sources that are store keys are taken as store files directly
(`copy-async.ts` lines 89-97, first branch). -/
def storeLiterals (ed : Editor) (srcs : List FsPath) : List FsPath :=
  srcs.filter fun s => ed.existsInMemoryQ (resolvePath s)

/-- Sources that are not store keys go to glob expansion
(`copy-async.ts` lines 89-97, second branch). -/
def globResolvedOf (ed : Editor) (srcs : List FsPath) : List FsPath :=
  srcs.filter fun s => !ed.existsInMemoryQ (resolvePath s)

/-- The glob pattern set (`copy-async.ts` line 101). -/
def patternsOf (ed : Editor) (srcs : List FsPath) : List FsPath :=
  (globResolvedOf ed srcs).map globify

/-- `globby(patterns, { absolute: true, onlyFiles: true })` over the model
disk: the on-disk files matching the pattern set (`copy-async.ts` line 102). -/
def globbySearch (patterns : List FsPath) (d : Disk) : List FsPath :=
  (d.files.filter fun f => multimatchAny f.path patterns).map (·.path)

/-- The disk-expansion result (`copy-async.ts` lines 99-102): empty when
no source needed glob expansion. -/
def diskFilesOf (ed : Editor) (srcs : List FsPath) : List FsPath :=
  if globResolvedOf ed srcs = [] then []
  else globbySearch (patternsOf ed srcs) ed.disk

/-- The store-scan virtual matches (`copy-async.ts` lines 103-113): every
store entry whose normalized path is not already a disk match, is not itself
a dynamic pattern, and matches the pattern set. -/
def scanVirtualsOf (ed : Editor) (srcs : List FsPath) : List FsPath :=
  if globResolvedOf ed srcs = [] then []
  else
    let diskFiles := diskFilesOf ed srcs
    let patterns := patternsOf ed srcs
    (ed.store.filter fun r =>
      !diskFiles.contains (normalizePath r.path) &&
      !isDynamicPattern (normalizePath r.path) &&
      multimatchAny (normalizePath r.path) patterns).map (·.path)

/-- The final `storeFiles` list: in-store literal sources first (pushed by
the classification loop), then the store-scan virtual matches. -/
def storeFilesOf (ed : Editor) (srcs : List FsPath) : List FsPath :=
  storeLiterals ed srcs ++ scanVirtualsOf ed srcs

/-- `copy-async.ts` line 79: some source is a dynamic pattern. -/
def hasDynamicOf (srcs : List FsPath) : Bool :=
  srcs.any fun s => isDynamicPattern (normalizePath s)

/-- `copy-async.ts` line 123: `to` is treated as a directory when `from` is
an array, files are not preferred, or some source went to glob expansion. -/
def treatToAsDirOf (ed : Editor) (from_ : FsPath ⊕ List FsPath) (opts : CopyAsyncOptions) : Bool :=
  let srcs := sourcesOf from_
  from_.isRight || !preferFilesOf (hasDynamicOf srcs) opts.hasGlobOptions ||
    !(globResolvedOf ed srcs).isEmpty

/-- The in-memory fast path guard (`copy-async.ts` line 66). -/
def memFastPath (ed : Editor) (f : FsPath) : Bool :=
  ed.existsInMemoryQ f && ed.existsFile f

/-- `getOneFile` (`copy-async.ts` lines 36-46): the resolved path when it is
an existing regular file on disk. -/
def getOneFile (ed : Editor) (f : FsPath) : Option FsPath :=
  if ed.disk.hasFile (resolvePath f) then some (resolvePath f) else none

/-- Destination generator (`copy-async.ts` lines 124-136). -/
def generateDestination (ed : Editor) (from_ : FsPath ⊕ List FsPath) (dst : FsPath)
    (opts : CopyAsyncOptions) (filepath : FsPath) : FsPath :=
  if treatToAsDirOf ed from_ opts then
    let fromBasePath := getCommonPath from_
    (opts.processDestinationPath.getD id) (joinPath dst (relativeTo fromBasePath filepath))
  else dst

/-- The per-file plan of the glob/store reconciliation path: disk matches
first, then store matches, mirroring the `Promise.all` argument order of
`copy-async.ts` lines 138-146. -/
def copyPlanOf (ed : Editor) (from_ : FsPath ⊕ List FsPath) (dst : FsPath)
    (opts : CopyAsyncOptions) : List PlannedCopy :=
  (diskFilesOf ed (sourcesOf from_)).map
      (fun f => { src := f, dest := generateDestination ed from_ dst opts f, virtual := false }) ++
    (storeFilesOf ed (sourcesOf from_)).map
      (fun f => { src := f, dest := generateDestination ed from_ dst opts f, virtual := true })

/-- The glob/store reconciliation path of `copyAsync` (`src/copy-async.ts`
lines 77-147), reached when no single-literal fast path applies:
classification of the sources, glob expansion plus the store scan, the
no-match sanity check (the `assert` raises `noMatch` unless the caller opted
out or some disk or store match exists), the destination-shape assertion,
and the final per-file plan. -/
def copyAsyncSlow (ed : Editor) (from_ : FsPath ⊕ List FsPath) (dst : FsPath)
    (opts : CopyAsyncOptions) : Except CopyError (List PlannedCopy × Bool) :=
  if opts.ignoreNoMatch || !(diskFilesOf ed (sourcesOf from_)).isEmpty ||
      !(storeFilesOf ed (sourcesOf from_)).isEmpty then
    if treatToAsDirOf ed from_ opts && ed.existsFile dst then
      if ed.disk.isDir dst then
        .ok (copyPlanOf ed from_ dst opts, treatToAsDirOf ed from_ opts)
      else if ed.disk.hasFile dst then .error .destNotDir
      else
        -- `fs.statSync(to)` rejects: `to` exists only virtually in the store
        .error .ioError
    else .ok (copyPlanOf ed from_ dst opts, treatToAsDirOf ed from_ opts)
  else .error .noMatch

/-- The resolution and planning phase of `copyAsync` (`src/copy-async.ts`
lines 54-147): the fast paths for a single literal source (an in-store file,
then an on-disk file), falling through to the glob/store reconciliation.
Returns the plan together with the `treatToAsDir` decision; the per-file
execution (`_copySingle` / `_copySingleAsync`) is modelled separately. Path
templating (`renderFilepath`) is the identity here, matching a request
without a template context. -/
def copyAsync (ed : Editor) (from_ : FsPath ⊕ List FsPath) (dst : FsPath)
    (opts : CopyAsyncOptions) : Except CopyError (List PlannedCopy × Bool) :=
  let dst := resolvePath dst
  match from_ with
  | .inl f =>
    if memFastPath ed f then
      .ok ([{ src := f, dest := dst, virtual := true }], false)
    else
      match getOneFile ed f with
      | some oneFile => .ok ([{ src := oneFile, dest := dst, virtual := false }], false)
      | none => copyAsyncSlow ed from_ dst opts
  | .inr _ => copyAsyncSlow ed from_ dst opts

/-! ## Per-file copy execution: `_write`, append, `_copySingle`,
`_copySingleAsync` -/

/-- Modelled from the spec: the editor-level `write` (staging a content
value): load or autoload the record, set its contents and mark it modified,
and upsert it into the store. -/
def Editor.writeContents (ed : Editor) (p : FsPath) (c : Contents) : Editor :=
  let r := ed.storeGet p
  { ed with store := storeAdd ed.store { r with contents := some c, state := .modified } }

/-- Modelled from the spec: `_write` stages a fully-constructed record in the
store (spec section 3 lifecycle: mutated in place, never duplicated). -/
def Editor.writeRecord (ed : Editor) (r : FileRecord) : Editor :=
  { ed with store := storeAdd ed.store r }

/-- Modelled from the spec: the append action (`append.ts` is not under the
provided sources); per spec section 4.4, append concatenates the new content
after the existing content instead of overwriting, creating the destination
when absent (`create: true`). -/
def Editor.appendTo (ed : Editor) (dst : FsPath) (b : Contents) : Editor :=
  let a := (ed.readContents dst).getD ""
  ed.writeContents dst (a ++ b)

/-- Modelled from the spec: `_copySingle` (`copy.ts` is not under the
provided sources); per spec section 4.4: obtain the content from the store if
present, else from disk; on append against an existing destination
concatenate, which requires the store existence-check capability and
otherwise fails fatally as an incompatible store; otherwise stage a new
record with state `modified`, history extended by the destination, and stat
metadata copied from the source when available. Content templating does not
apply (no template context in the model). -/
def Editor.copySingle (ed : Editor) (src dst : FsPath) (opts : CopyAsyncOptions) :
    Except CopyError Editor :=
  match ed.readContents src with
  | none => .error .ioError
  | some c =>
    if opts.append && !ed.storeHasExistsInMemory then .error .incompatibleStore
    else if opts.append && ed.existsInMemoryQ dst then .ok (ed.appendTo dst c)
    else
      .ok (ed.writeRecord
        { path := dst
          contents := some c
          state := .modified
          history := (match storeFind ed.store src with
            | some r => r.history
            | none => [src]) ++ [dst]
          statMode := match storeFind ed.store src with
            | some r => r.statMode
            | none => ed.disk.modeOf src })

/-- `_copySingleAsync` (`src/copy-async.ts` lines 155-193): without a
`processFile` hook it delegates to `_copySingle`; with one, it applies the
hook to obtain the contents, performs the append compatibility check and the
append itself, and otherwise stages a new record whose stat comes from
`fsPromises.stat(from)` (which rejects when the source is not on disk). -/
def Editor.copySingleAsync (ed : Editor) (src dst : FsPath) (opts : CopyAsyncOptions) :
    Except CopyError Editor :=
  if !opts.hasProcessFile then ed.copySingle src dst opts
  else
    if opts.append && !ed.storeHasExistsInMemory then .error .incompatibleStore
    else if opts.append && ed.existsInMemoryQ dst then
      .ok (ed.appendTo dst (opts.processFile (resolvePath src)))
    else
      match ed.disk.modeOf (resolvePath src) with
      | none => .error .ioError
      | some m =>
        .ok (ed.writeRecord
          { path := dst
            contents := some (opts.processFile (resolvePath src))
            state := .modified
            history := [resolvePath src, dst]
            statMode := some m })

/-! ## The delete engine (embedding of `src/actions/delete.ts`) -/

/-- The structurally-invalid-input error of the delete engine (spec section
7, ValidationError); no code path of `deleteAction` raises it, since typed
inputs are always structurally valid. -/
inductive DeleteError where
  | invalidInput
deriving DecidableEq, Repr

/-- `deleteFile` (`delete.ts` lines 11-16): load or autoload the record,
tombstone it (state `deleted`, null contents) and re-add it. -/
def deleteFileStore (p : FsPath) (ed : Editor) : Editor :=
  let file := ed.storeGet p
  { ed with store := storeAdd ed.store { file with state := .deleted, contents := none } }

/-- Insertion-ordered deduplication with a seen-accumulator. -/
def dedupKeepFirstAux (seen : List FsPath) : List FsPath → List FsPath
  | [] => []
  | p :: ps =>
    if seen.contains p then dedupKeepFirstAux seen ps
    else p :: dedupKeepFirstAux (p :: seen) ps

/-- Insertion-ordered deduplication, modelling a JS `Set` built by iteration. -/
def dedupKeepFirst (l : List FsPath) : List FsPath := dedupKeepFirstAux [] l

/-- Classification of one input path as a direct on-store delete target
(`delete.ts` line 32: loaded with real contents). -/
def isOnStoreTarget (ed : Editor) (p : FsPath) : Bool :=
  ed.existsInMemoryQ p &&
    match storeFind ed.store p with
    | some r => r.contents.isSome
    | none => false

/-- Classification of one input path as not-found, hence a glob candidate
(`delete.ts` lines 30-36: not loaded, or loaded with null contents but not
already tombstoned). -/
def isNotFoundTarget (ed : Editor) (p : FsPath) : Bool :=
  !ed.existsInMemoryQ p ||
    match storeFind ed.store p with
    | some r => r.contents.isNone && !(r.state = .deleted)
    | none => true

/-- The `onStoreFiles` set of `deleteAction`, in insertion order. -/
def onStoreFilesOf (ed : Editor) (paths : List FsPath) : List FsPath :=
  dedupKeepFirst (paths.filter fun p => isOnStoreTarget ed p)

/-- The `notFound` set of `deleteAction`, in insertion order. -/
def notFoundOf (ed : Editor) (paths : List FsPath) : List FsPath :=
  dedupKeepFirst (paths.filter fun p => isNotFoundTarget ed p)

/-- The delete engine (`delete.ts` lines 18-56): classify each input path as
an on-store target, a tombstoned no-op, or a not-found glob candidate;
expand the candidates against disk and tombstone the matches; scan every
store entry against the same pattern set and tombstone the matches; finally
tombstone the on-store targets. Total — no code path raises an error; the
`Except` result records that the only conceivable failure is structurally
invalid input, which well-typed inputs exclude. `foldDel` folds the
per-target tombstoning over a target list. -/
def foldDel (l : List FsPath) (ed : Editor) : Editor :=
  l.foldl (fun e f => deleteFileStore f e) ed

def deleteCore (ed : Editor) (paths : List FsPath) : Editor :=
  let onStoreFiles := onStoreFilesOf ed paths
  let pats := (notFoundOf ed paths).map globify
  let files := (globbySearch pats ed.disk).map resolvePath
  let ed := foldDel files ed
  let snapshot := ed.store.map (·.path)
  let ed := foldDel (snapshot.filter fun p => multimatchAny (normalizePath p) pats) ed
  foldDel onStoreFiles ed

/-- `deleteAction` as the callers see it: a fallible action that in fact
always succeeds. -/
def deleteAction (ed : Editor) (paths : List FsPath) : Except DeleteError Editor :=
  .ok (deleteCore ed paths)

/-! ## The commit/reconciliation engine, modelled from the spec -/

/-- Syscall/mutation counters of one commit: disk content writes, mode-change
(`chmod`) syscalls, unlinks, and store mutations. -/
structure CommitLog where
  writes : Nat
  chmods : Nat
  unlinks : Nat
  storeMutations : Nat
deriving DecidableEq, Repr

/-- The all-zero commit log of a no-op commit. -/
def CommitLog.zero : CommitLog := { writes := 0, chmods := 0, unlinks := 0, storeMutations := 0 }

/-- Proper ancestor directories of a path (all leading segment runs). -/
def ancestorsOf (p : FsPath) : List FsPath :=
  let segs := segsOf p
  ((List.range segs.length).filter (0 < ·)).map fun n => joinSegs (segs.take n)

/-- Write content bytes at a path: replace the entry keeping its mode, or
create it with the default creation mode `0o644`. -/
def Disk.writeFile (d : Disk) (p : FsPath) (c : Contents) : Disk :=
  { d with files :=
      if (d.findFile p).isSome then
        d.files.map fun g => if g.path = p then { g with contents := c } else g
      else d.files ++ [{ path := p, contents := c, mode := 0o644 }] }

/-- Set the permission mode of an existing file. -/
def Disk.chmod (d : Disk) (p : FsPath) (m : Nat) : Disk :=
  { d with files := d.files.map fun g => if g.path = p then { g with mode := m } else g }

/-- Remove a file (absence is success). -/
def Disk.unlink (d : Disk) (p : FsPath) : Disk :=
  { d with files := d.files.filter fun g => g.path ≠ p }

/-- Modelled from the spec: the commit/reconciliation engine (section 4.6;
the commit implementation is not under the provided sources). One record is
projected onto the disk: `unmodified` is a no-op with zero disk writes and
zero store mutations; `deleted` unlinks the file when present (absence is
success); `modified` ensures parent directories exist (fatal when a parent
exists as a file, or the target path is a directory), writes the content
bytes, diffs the record's permission mode against the on-disk mode and
applies it only when different, then resets the record's state to
`unmodified` and refreshes its cached stat to the just-written metadata. -/
def mkdirpDirs (disk : Disk) (p : FsPath) : Disk :=
  { disk with dirs := disk.dirs ++ ((ancestorsOf p).filter fun a => !disk.dirs.contains a) }

def commitFile (disk : Disk) (r : FileRecord) : Except CopyError (Disk × FileRecord × CommitLog) :=
  match r.state with
  | .unmodified => .ok (disk, r, CommitLog.zero)
  | .deleted =>
    .ok (disk.unlink r.path, { r with state := .unmodified },
      { writes := 0, chmods := 0, unlinks := (if disk.hasFile r.path then 1 else 0),
        storeMutations := 1 })
  | .modified =>
    if disk.isDir r.path then .error .ioError
    else if (ancestorsOf r.path).any (fun a => disk.hasFile a) then .error .ioError
    else
      match r.contents with
      | none => .error .ioError
      | some c =>
        let written := (mkdirpDirs disk r.path).writeFile r.path c
        let currentMode := (written.modeOf r.path).getD 0o644
        match r.statMode with
        | some m =>
          if currentMode ≠ m then
            .ok (written.chmod r.path m,
              { r with
                state := FileState.unmodified
                statMode := some (((written.chmod r.path m).modeOf r.path).getD 0o644) },
              { CommitLog.zero with writes := 1, chmods := 1, storeMutations := 1 })
          else
            .ok (written, { r with state := FileState.unmodified, statMode := some currentMode },
              { CommitLog.zero with writes := 1, chmods := 0, storeMutations := 1 })
        | none =>
          .ok (written, { r with state := FileState.unmodified, statMode := some currentMode },
            { CommitLog.zero with writes := 1, chmods := 0, storeMutations := 1 })

/-! ## Claim-facing predicates and concrete instances -/

/-- Neither single-literal fast path of `copyAsync` applies: the source is an
array, or a string that is not an in-store-and-existing file nor an existing
on-disk regular file. -/
def noFastPath (ed : Editor) : FsPath ⊕ List FsPath → Prop
  | .inl f => memFastPath ed f = false ∧ getOneFile ed f = none
  | .inr _ => True

/-- The no-match sanity check of `copyAsync` passes: the caller opted out, or
some disk or store match was found. -/
abbrev copyGatePasses (ed : Editor) (srcs : List FsPath) (opts : CopyAsyncOptions) : Prop :=
  (opts.ignoreNoMatch || !(diskFilesOf ed srcs).isEmpty || !(storeFilesOf ed srcs).isEmpty) = true

/-- Zero delete candidates: no direct on-store target, no disk glob match,
and no store entry matching the pattern set. -/
abbrev deleteNoCandidates (ed : Editor) (paths : List FsPath) : Prop :=
  onStoreFilesOf ed paths = [] ∧
  globbySearch ((notFoundOf ed paths).map globify) ed.disk = [] ∧
  (ed.store.map (·.path)).filter
    (fun p => multimatchAny (normalizePath p) ((notFoundOf ed paths).map globify)) = []

/-- The chmod count of a commit result, when it succeeded. -/
def commitChmods (res : Except CopyError (Disk × FileRecord × CommitLog)) : Option Nat :=
  match res with
  | .ok x => some x.2.2.chmods
  | .error _ => none

/-- A store entry is tombstoned at `p`: the loaded record has state `deleted`
and null contents. -/
def tombAt (ed : Editor) (p : FsPath) : Prop :=
  ∃ r, storeFind ed.store p = some r ∧ r.state = .deleted ∧ r.contents = none

/-- Editor with `/b/a.txt` both in the store and on disk: a literal in-store
source that a sibling glob source also matches on disk. -/
def dupEditor : Editor :=
  { store := [{ path := "/b/a.txt", contents := some "mem", state := .modified,
                history := ["/b/a.txt"], statMode := none }]
    disk := { files := [{ path := "/b/a.txt", contents := "disk", mode := 420 }]
              dirs := ["/b", "/dest"] }
    storeHasExistsInMemory := true }

/-- Editor whose store holds a record keyed by the dynamic-pattern string
itself (the sources call this a store glob path), while the destination
exists on disk as a regular file, not a directory. -/
def dynKeyEditor : Editor :=
  { store := [{ path := "/a/*.txt", contents := some "x", state := .modified,
                history := ["/a/*.txt"], statMode := none }]
    disk := { files := [{ path := "/dest", contents := "f", mode := 420 }], dirs := [] }
    storeHasExistsInMemory := true }

/-- Editor with an empty store and an empty disk. -/
def emptyEditor : Editor :=
  { store := [], disk := { files := [], dirs := [] }, storeHasExistsInMemory := true }

/-- Editor with one on-disk source and the destination on disk as a regular
file. -/
def shapeEditor : Editor :=
  { store := []
    disk := { files := [{ path := "/x.txt", contents := "x", mode := 420 },
                        { path := "/dest", contents := "f", mode := 420 }]
              dirs := [] }
    storeHasExistsInMemory := true }

/-- Editor holding the append destination in the store with content `"A"`. -/
def appendEditor : Editor :=
  { store := [{ path := "/new/file.txt", contents := some "A", state := .modified,
                history := ["/new/file.txt"], statMode := none }]
    disk := { files := [], dirs := [] }
    storeHasExistsInMemory := true }

/-- Editor over a legacy store lacking the `existsInMemory` capability. -/
def legacyEditor : Editor :=
  { store := []
    disk := { files := [{ path := "/src.txt", contents := "s", mode := 420 }], dirs := [] }
    storeHasExistsInMemory := false }

/-- Editor with one unrelated store entry and an empty disk. -/
def keepEditor : Editor :=
  { store := [{ path := "/keep.txt", contents := some "k", state := .modified,
                history := ["/keep.txt"], statMode := none }]
    disk := { files := [], dirs := [] }
    storeHasExistsInMemory := true }

/-- A modified record carrying content and an explicit permission mode. -/
def modeRecord : FileRecord :=
  { path := "/out/f.txt", contents := some "c", state := .modified,
    history := ["/out/f.txt"], statMode := some 0o600 }

/-! ## Basic lemmas -/

@[simp] lemma resolvePath_eq (p : FsPath) : resolvePath p = p := rfl

@[simp] lemma normalizePath_eq (p : FsPath) : normalizePath p = p := rfl

@[simp] lemma globify_eq (p : FsPath) : globify p = p := rfl

@[simp] lemma map_resolvePath (l : List FsPath) : l.map resolvePath = l := by
  induction l with
  | nil => rfl
  | cons a t ih => simp [resolvePath, ih]

@[simp] lemma map_globify (l : List FsPath) : l.map globify = l := by
  induction l with
  | nil => rfl
  | cons a t ih => simp [globify, ih]

lemma storeFind_path {s : Store} {p : FsPath} {r : FileRecord}
    (h : storeFind s p = some r) : r.path = p := by
  have := List.find?_some h
  simpa using this

lemma storeFind_nil (p : FsPath) : storeFind [] p = none := rfl

lemma storeFind_cons (r : FileRecord) (rs : Store) (p : FsPath) :
    storeFind (r :: rs) p = if r.path = p then some r else storeFind rs p := by
  by_cases h : r.path = p <;> simp [storeFind, List.find?_cons, h]

lemma storeAdd_nil (f : FileRecord) : storeAdd [] f = [f] := rfl

lemma storeAdd_cons (r : FileRecord) (rs : Store) (f : FileRecord) :
    storeAdd (r :: rs) f = if r.path = f.path then f :: rs else r :: storeAdd rs f := rfl

lemma storeAdd_find_self (s : Store) (f : FileRecord) :
    storeFind (storeAdd s f) f.path = some f := by
  induction s with
  | nil => simp [storeAdd_nil, storeFind_cons, storeFind_nil]
  | cons r rs ih =>
    by_cases h : r.path = f.path
    · simp [storeAdd_cons, h, storeFind_cons]
    · simp [storeAdd_cons, h, storeFind_cons, ih]

lemma storeAdd_find_other {q : FsPath} (s : Store) (f : FileRecord) (h : q ≠ f.path) :
    storeFind (storeAdd s f) q = storeFind s q := by
  have hfq : ¬ f.path = q := fun hc => h hc.symm
  induction s with
  | nil => simp [storeAdd_nil, storeFind_cons, storeFind_nil, hfq]
  | cons r rs ih =>
    by_cases hr : r.path = f.path
    · have hrq : ¬ r.path = q := hr ▸ hfq
      simp [storeAdd_cons, hr, storeFind_cons, hrq, hfq]
    · by_cases hrq : r.path = q
      · simp [storeAdd_cons, hr, storeFind_cons, hrq, h]
      · simp [storeAdd_cons, hr, storeFind_cons, hrq, ih, h]

lemma storeAdd_of_find_self {s : Store} {p : FsPath} {r : FileRecord}
    (h : storeFind s p = some r) : storeAdd s r = s := by
  induction s with
  | nil => simp [storeFind_nil] at h
  | cons a as ih =>
    by_cases ha : a.path = p
    · have hh : some a = some r := by simpa [storeFind_cons, ha] using h
      cases hh
      simp [storeAdd_cons, ha]
    · have h2 : storeFind as p = some r := by simpa [storeFind_cons, ha] using h
      have hrp : r.path = p := storeFind_path h2
      have hne : ¬ a.path = r.path := by rw [hrp]; exact ha
      simp [storeAdd_cons, hne, ih h2]

lemma record_eta {r : FileRecord} (hs : r.state = .deleted) (hc : r.contents = none) :
    { r with state := FileState.deleted, contents := none } = r := by
  cases r
  simp_all

/-! ## Claim C2: the no-match sanity check -/

lemma copyAsync_eq_slow {ed : Editor} {from_ : FsPath ⊕ List FsPath} (dst : FsPath)
    (opts : CopyAsyncOptions) (h : noFastPath ed from_) :
    copyAsync ed from_ dst opts = copyAsyncSlow ed from_ dst opts := by
  cases from_ with
  | inl f =>
    obtain ⟨h1, h2⟩ := h
    simp [copyAsync, h1, h2]
  | inr l => rfl

/-- Claim C2: for every copy request that does not take the
single-literal-existing-file fast path, `copyAsync` fails with the
no-source-matched error exactly when the resolved disk-match list and the
store-match list are both empty and the caller did not set `ignoreNoMatch`;
when a match exists or `ignoreNoMatch` is set, this error is not raised
(the `Except` result carries no plan when the error is raised, so the
failure precedes every per-file copy). -/
theorem claim2_no_match_iff (ed : Editor) (from_ : FsPath ⊕ List FsPath)
    (dst : FsPath) (opts : CopyAsyncOptions) (h : noFastPath ed from_) :
    copyAsync ed from_ dst opts = .error .noMatch ↔
      (opts.ignoreNoMatch = false ∧ diskFilesOf ed (sourcesOf from_) = [] ∧
        storeFilesOf ed (sourcesOf from_) = []) := by
  rw [copyAsync_eq_slow dst opts h]
  unfold copyAsyncSlow
  by_cases hg : (opts.ignoreNoMatch || !(diskFilesOf ed (sourcesOf from_)).isEmpty ||
      !(storeFilesOf ed (sourcesOf from_)).isEmpty) = true
  · simp only [hg, if_true]
    constructor
    · intro hres
      exfalso
      split at hres
      · split at hres
        · simp at hres
        · split at hres <;> simp at hres
      · simp at hres
    · rintro ⟨h1, h2, h3⟩
      simp [h1, h2, h3] at hg
  · have hg2 : (opts.ignoreNoMatch || !(diskFilesOf ed (sourcesOf from_)).isEmpty ||
        !(storeFilesOf ed (sourcesOf from_)).isEmpty) = false := by simpa using hg
    simp only [Bool.or_eq_false_iff] at hg2
    obtain ⟨⟨hi, hd0⟩, hs0⟩ := hg2
    have hd : diskFilesOf ed (sourcesOf from_) = [] := by simpa using hd0
    have hs : storeFilesOf ed (sourcesOf from_) = [] := by simpa using hs0
    simp [hi, hd, hs]

/-- Witness for C2 at a concrete no-match request. -/
theorem claim2_witness :
    noFastPath emptyEditor (Sum.inl "/nope.txt") ∧
    (copyAsync emptyEditor (Sum.inl "/nope.txt") "/dest" {} = .error .noMatch ↔
      (({} : CopyAsyncOptions).ignoreNoMatch = false ∧
        diskFilesOf emptyEditor (sourcesOf (Sum.inl "/nope.txt")) = [] ∧
        storeFilesOf emptyEditor (sourcesOf (Sum.inl "/nope.txt")) = [])) :=
  ⟨⟨rfl, rfl⟩, claim2_no_match_iff emptyEditor (Sum.inl "/nope.txt") "/dest" {} ⟨rfl, rfl⟩⟩

/-! ## Claim C1: glob/store reconciliation and deduplication -/

/-- Counterexample to claim C1 as stated: in a multi-file copy request
involving a glob pattern (`from = ["/b/a.txt", "/b/*.txt"]`) against
`dupEditor`, whose store holds `/b/a.txt` while the same path also exists on
disk, the literal in-store source is pushed to the store-file list by the
classification loop without consulting the pattern set, and the glob source
independently matches the same path on disk — so `/b/a.txt` appears twice in
the combined disk-plus-virtual file list and the plan copies it twice. -/
theorem claim1_counterexample :
    copyAsync dupEditor (Sum.inr ["/b/a.txt", "/b/*.txt"]) "/dest" {} =
      .ok ([{ src := "/b/a.txt", dest := "/dest/a.txt", virtual := false },
            { src := "/b/a.txt", dest := "/dest/a.txt", virtual := true }], true) ∧
    (diskFilesOf dupEditor ["/b/a.txt", "/b/*.txt"] ++
      storeFilesOf dupEditor ["/b/a.txt", "/b/*.txt"]).count "/b/a.txt" = 2 := by
  exact ⟨rfl, by decide⟩

/-- Claim C1 (amended): restricted to the store-scan phase of the
reconciliation, a store entry is added as a virtual (memory-only) match if
and only if glob expansion took place, its normalized path matches the
pattern set, is not itself a dynamic pattern, and is not already present in
the disk-expansion result; consequently, when store and disk keys are
unique, no path appears twice in the disk-expansion list plus the
scan-added virtual list. (The unamended claim fails because a literal
in-store source bypasses the scan: `claim1_counterexample`.) -/
theorem claim1_scan_characterization (ed : Editor) (srcs : List FsPath) (p : FsPath)
    (h1 : (ed.store.map (·.path)).Nodup) (h2 : (ed.disk.files.map (·.path)).Nodup) :
    (p ∈ scanVirtualsOf ed srcs ↔
      (globResolvedOf ed srcs ≠ [] ∧ ∃ r ∈ ed.store, r.path = p ∧
        (diskFilesOf ed srcs).contains p = false ∧ isDynamicPattern p = false ∧
        multimatchAny p (patternsOf ed srcs) = true)) ∧
    (diskFilesOf ed srcs ++ scanVirtualsOf ed srcs).Nodup := by
  constructor
  · by_cases hglob : globResolvedOf ed srcs = []
    · simp [scanVirtualsOf, hglob]
    · constructor
      · intro hp
        refine ⟨hglob, ?_⟩
        simp only [scanVirtualsOf, if_neg hglob, List.mem_map, List.mem_filter] at hp
        obtain ⟨r, ⟨hrs, hcond⟩, hrp⟩ := hp
        subst hrp
        simp only [normalizePath_eq, Bool.and_eq_true, Bool.not_eq_true'] at hcond
        exact ⟨r, hrs, rfl, hcond.1.1, hcond.1.2, hcond.2⟩
      · rintro ⟨hglob2, r, hrs, hrp, hc1, hc2, hc3⟩
        subst hrp
        simp only [scanVirtualsOf, if_neg hglob, List.mem_map, List.mem_filter]
        refine ⟨r, ⟨hrs, ?_⟩, rfl⟩
        simp only [normalizePath_eq, Bool.and_eq_true, Bool.not_eq_true']
        exact ⟨⟨hc1, hc2⟩, hc3⟩
  · by_cases hglob : globResolvedOf ed srcs = []
    · simp [diskFilesOf, scanVirtualsOf, hglob]
    · have hdisk : (diskFilesOf ed srcs).Nodup := by
        simp only [diskFilesOf, if_neg hglob, globbySearch]
        exact h2.sublist (List.Sublist.map _ (List.filter_sublist _))
      have hscan : (scanVirtualsOf ed srcs).Nodup := by
        simp only [scanVirtualsOf, if_neg hglob]
        exact h1.sublist (List.Sublist.map _ (List.filter_sublist _))
      rw [List.nodup_append]
      refine ⟨hdisk, hscan, ?_⟩
      intro x hx hx2
      simp only [scanVirtualsOf, if_neg hglob, List.mem_map, List.mem_filter] at hx2
      obtain ⟨r, ⟨hrs, hcond⟩, hrp⟩ := hx2
      subst hrp
      simp only [normalizePath_eq, Bool.and_eq_true, Bool.not_eq_true'] at hcond
      have hmem : (diskFilesOf ed srcs).contains r.path = true := List.elem_iff.mpr hx
      rw [hcond.1.1] at hmem
      exact Bool.false_ne_true hmem

/-- Witness for C1 (amended) at `dupEditor`. -/
theorem claim1_witness :
    (dupEditor.store.map (·.path)).Nodup ∧ (dupEditor.disk.files.map (·.path)).Nodup ∧
    (("/b/a.txt" ∈ scanVirtualsOf dupEditor ["/b/a.txt", "/b/*.txt"] ↔
      (globResolvedOf dupEditor ["/b/a.txt", "/b/*.txt"] ≠ [] ∧
        ∃ r ∈ dupEditor.store, r.path = "/b/a.txt" ∧
          (diskFilesOf dupEditor ["/b/a.txt", "/b/*.txt"]).contains "/b/a.txt" = false ∧
          isDynamicPattern "/b/a.txt" = false ∧
          multimatchAny "/b/a.txt" (patternsOf dupEditor ["/b/a.txt", "/b/*.txt"]) = true)) ∧
      (diskFilesOf dupEditor ["/b/a.txt", "/b/*.txt"] ++
        scanVirtualsOf dupEditor ["/b/a.txt", "/b/*.txt"]).Nodup) :=
  ⟨by decide, by decide,
    claim1_scan_characterization dupEditor ["/b/a.txt", "/b/*.txt"] "/b/a.txt"
      (by decide) (by decide)⟩

/-! ## Claim C3: destination shape -/

lemma copyAsyncSlow_ok_dir {ed : Editor} {from_ : FsPath ⊕ List FsPath} {dst : FsPath}
    {opts : CopyAsyncOptions} {plan : List PlannedCopy} {b : Bool}
    (h : copyAsyncSlow ed from_ dst opts = .ok (plan, b)) :
    b = treatToAsDirOf ed from_ opts := by
  unfold copyAsyncSlow at h
  split at h
  · split at h
    · split at h
      · simp only [Except.ok.injEq, Prod.mk.injEq] at h
        exact h.2.symm
      · split at h <;> simp at h
    · simp only [Except.ok.injEq, Prod.mk.injEq] at h
      exact h.2.symm
  · simp at h

/-- Counterexample to claim C3 as stated: the source `/a/*.txt` contains a
dynamic glob pattern, and the destination `/dest` exists on disk and is not
a directory, yet `copyAsync` succeeds with `to` treated as a single file
path — the store holds a record keyed by the pattern string itself, so the
single-literal in-memory fast path bypasses the destination-shape
assertion. -/
theorem claim3_counterexample :
    copyAsync dynKeyEditor (Sum.inl "/a/*.txt") "/dest" {} =
      .ok ([{ src := "/a/*.txt", dest := "/dest", virtual := true }], false) ∧
    isDynamicPattern "/a/*.txt" = true ∧
    dynKeyEditor.disk.hasFile "/dest" = true ∧
    dynKeyEditor.disk.isDir "/dest" = false :=
  ⟨rfl, by decide, by decide, by decide⟩

/-- Claim C3 (amended): when neither single-literal fast path applies, the
destination is treated as a directory whenever the source is an array,
contains a dynamic pattern, or includes a source that is not an in-store
key; in that directory mode the operation fails with the assertion error
`destNotDir` when the destination exists on disk as a non-directory; and a
plan with `to` treated as a file path arises only from a single string
source that is an in-store key or an existing on-disk file. (As stated the
claim fails on the fast paths, which a dynamic-pattern source can still
take when the pattern string itself names an in-store or on-disk file:
`claim3_counterexample`.) -/
theorem claim3_destination_shape (ed : Editor) (from_ : FsPath ⊕ List FsPath)
    (f dst : FsPath) (opts : CopyAsyncOptions) (plan : List PlannedCopy) :
    (from_.isRight = true → treatToAsDirOf ed from_ opts = true) ∧
    (hasDynamicOf (sourcesOf from_) = true → treatToAsDirOf ed from_ opts = true) ∧
    (ed.existsInMemoryQ f = false → treatToAsDirOf ed (Sum.inl f) opts = true) ∧
    (noFastPath ed from_ → treatToAsDirOf ed from_ opts = true →
      copyGatePasses ed (sourcesOf from_) opts →
      ed.existsFile dst = true → ed.disk.hasFile dst = true → ed.disk.isDir dst = false →
      copyAsync ed from_ dst opts = .error .destNotDir) ∧
    (copyAsync ed from_ dst opts = .ok (plan, false) →
      ∃ g, from_ = Sum.inl g ∧
        (memFastPath ed g = true ∨ (getOneFile ed g).isSome = true ∨
          ed.existsInMemoryQ g = true)) := by
  refine ⟨?_, ?_, ?_, ?_, ?_⟩
  · intro h
    simp [treatToAsDirOf, h]
  · intro h
    simp [treatToAsDirOf, preferFilesOf, h]
  · intro h
    have hne : (globResolvedOf ed (sourcesOf (Sum.inl f : FsPath ⊕ List FsPath))).isEmpty
        = false := by
      simp [sourcesOf, globResolvedOf, resolvePath, h]
    simp [treatToAsDirOf, hne]
  · intro hnf htd hgate hex hhf hnd
    rw [copyAsync_eq_slow dst opts hnf]
    unfold copyAsyncSlow
    have hg : (opts.ignoreNoMatch || !(diskFilesOf ed (sourcesOf from_)).isEmpty ||
        !(storeFilesOf ed (sourcesOf from_)).isEmpty) = true := hgate
    simp [hg, htd, hex, hnd, hhf]
  · intro hok
    cases from_ with
    | inr l =>
      exfalso
      have hb : false = treatToAsDirOf ed (Sum.inr l : FsPath ⊕ List FsPath) opts :=
        copyAsyncSlow_ok_dir hok
      simp [treatToAsDirOf] at hb
    | inl g =>
      refine ⟨g, rfl, ?_⟩
      by_cases hm : memFastPath ed g = true
      · exact Or.inl hm
      by_cases ho : (getOneFile ed g).isSome = true
      · exact Or.inr (Or.inl ho)
      refine Or.inr (Or.inr ?_)
      have hm0 : memFastPath ed g = false := by simpa using hm
      have ho0 : getOneFile ed g = none := by
        cases hoo : getOneFile ed g with
        | none => rfl
        | some v => rw [hoo] at ho; simp at ho
      have hnf : noFastPath ed (Sum.inl g : FsPath ⊕ List FsPath) :=
        show memFastPath ed g = false ∧ getOneFile ed g = none from ⟨hm0, ho0⟩
      have hok2 : copyAsyncSlow ed (Sum.inl g : FsPath ⊕ List FsPath) dst opts =
          .ok (plan, false) := by
        rw [← copyAsync_eq_slow dst opts hnf]
        exact hok
      have hb : false = treatToAsDirOf ed (Sum.inl g : FsPath ⊕ List FsPath) opts :=
        copyAsyncSlow_ok_dir hok2
      by_cases hgm : ed.existsInMemoryQ g = true
      · exact hgm
      · exfalso
        have hgm0 : ed.existsInMemoryQ g = false := by simpa using hgm
        have hne : (globResolvedOf ed (sourcesOf (Sum.inl g : FsPath ⊕ List FsPath))).isEmpty
            = false := by
          simp [sourcesOf, globResolvedOf, resolvePath, hgm0]
        simp [treatToAsDirOf, hne] at hb

/-- Witness for C3 (amended): a two-element plan request against a
destination that exists on disk as a regular file fails with the
destination-shape assertion. -/
theorem claim3_witness :
    noFastPath shapeEditor (Sum.inr ["/x.txt"]) ∧
    treatToAsDirOf shapeEditor (Sum.inr ["/x.txt"]) {} = true ∧
    copyGatePasses shapeEditor (sourcesOf (Sum.inr ["/x.txt"])) {} ∧
    shapeEditor.existsFile "/dest" = true ∧
    shapeEditor.disk.hasFile "/dest" = true ∧
    shapeEditor.disk.isDir "/dest" = false ∧
    copyAsync shapeEditor (Sum.inr ["/x.txt"]) "/dest" {} = .error .destNotDir :=
  ⟨trivial, by decide, by decide, by decide, by decide, by decide,
    (claim3_destination_shape shapeEditor (Sum.inr ["/x.txt"]) "/x.txt" "/dest" {} []).2.2.2.1
      trivial (by decide) (by decide) (by decide) (by decide) (by decide)⟩

/-! ## Claims C4 and C5: append semantics and store compatibility -/

/-- Claim C4: for every copy with `append = true` whose destination already
exists in the store with content `A`, copying new content `B` leaves the
destination holding the concatenation `A ++ B` (order preserved) instead of
overwriting. -/
theorem claim4_append_concat (ed : Editor) (src dstPath : FsPath) (A B : Contents)
    (r : FileRecord) (opts : CopyAsyncOptions)
    (h1 : opts.append = true) (h2 : opts.hasProcessFile = true)
    (h3 : opts.processFile (resolvePath src) = B)
    (h4 : ed.storeHasExistsInMemory = true)
    (h5 : storeFind ed.store dstPath = some r) (h6 : r.contents = some A) :
    ed.copySingleAsync src dstPath opts = .ok (ed.writeContents dstPath (A ++ B)) ∧
    ((storeFind (ed.writeContents dstPath (A ++ B)).store dstPath).map (·.contents)) =
      some (some (A ++ B)) := by
  have hext : ed.existsInMemoryQ dstPath = true := by
    simp [Editor.existsInMemoryQ, h4, h5]
  have hp : r.path = dstPath := storeFind_path h5
  constructor
  · simp [Editor.copySingleAsync, h1, h2, h3, h4, hext, Editor.appendTo,
      Editor.readContents, h5, h6]
    rw [(by simpa using h3 : opts.processFile src = B)]
  · have hget : ed.storeGet dstPath = r := by simp [Editor.storeGet, h5]
    have h7 : storeFind
        (storeAdd ed.store ({ r with contents := some (A ++ B), state := .modified }))
        dstPath = some ({ r with contents := some (A ++ B), state := .modified } : FileRecord) := by
      rw [← hp]
      exact storeAdd_find_self _ _
    simp [Editor.writeContents, hget, h7]

/-- Witness for C4 at `appendEditor`. -/
theorem claim4_witness :
    ({ append := true, hasProcessFile := true,
       processFile := fun _ => "B" } : CopyAsyncOptions).append = true ∧
    appendEditor.storeHasExistsInMemory = true ∧
    (appendEditor.copySingleAsync "/tpl.txt" "/new/file.txt"
        { append := true, hasProcessFile := true, processFile := fun _ => "B" } =
      .ok (appendEditor.writeContents "/new/file.txt" ("A" ++ "B")) ∧
    ((storeFind (appendEditor.writeContents "/new/file.txt" ("A" ++ "B")).store
        "/new/file.txt").map (·.contents)) = some (some ("A" ++ "B"))) :=
  ⟨rfl, rfl,
    claim4_append_concat appendEditor "/tpl.txt" "/new/file.txt" "A" "B"
      { path := "/new/file.txt", contents := some "A", state := .modified,
        history := ["/new/file.txt"], statMode := none }
      { append := true, hasProcessFile := true, processFile := fun _ => "B" }
      rfl rfl rfl rfl (by decide) rfl⟩

/-- Claim C5: for every copy requested with `append = true` against a store
lacking the `existsInMemory` capability, the operation fails fatally with
the incompatible-store error instead of silently overwriting the
destination (provided the copy gets as far as the append check: a
`processFile` hook is present, or the source has readable content). -/
theorem claim5_incompatible_store (ed : Editor) (src dstPath : FsPath)
    (opts : CopyAsyncOptions)
    (h1 : opts.append = true) (h2 : ed.storeHasExistsInMemory = false)
    (h3 : opts.hasProcessFile = true ∨ (ed.readContents src).isSome = true) :
    ed.copySingleAsync src dstPath opts = .error .incompatibleStore := by
  by_cases hp : opts.hasProcessFile = true
  · simp [Editor.copySingleAsync, hp, h1, h2]
  · have hp0 : opts.hasProcessFile = false := by simpa using hp
    rcases h3 with h3 | h3
    · exact absurd h3 hp
    · obtain ⟨c, hc⟩ := Option.isSome_iff_exists.mp h3
      simp [Editor.copySingleAsync, hp0, Editor.copySingle, hc, h1, h2]

/-- Witness for C5 at `legacyEditor`. -/
theorem claim5_witness :
    ({ append := true } : CopyAsyncOptions).append = true ∧
    legacyEditor.storeHasExistsInMemory = false ∧
    (({ append := true } : CopyAsyncOptions).hasProcessFile = true ∨
      (legacyEditor.readContents "/src.txt").isSome = true) ∧
    legacyEditor.copySingleAsync "/src.txt" "/dst.txt" { append := true } =
      .error .incompatibleStore :=
  ⟨rfl, rfl, Or.inr (by decide),
    claim5_incompatible_store legacyEditor "/src.txt" "/dst.txt" { append := true }
      rfl rfl (Or.inr (by decide))⟩

/-! ## Claim C6: delete idempotence -/

lemma storeGet_path (ed : Editor) (q : FsPath) : (ed.storeGet q).path = q := by
  unfold Editor.storeGet
  cases h : storeFind ed.store q with
  | some r => simpa using storeFind_path h
  | none => rfl

lemma deleteFileStore_disk (q : FsPath) (ed : Editor) :
    (deleteFileStore q ed).disk = ed.disk := rfl

lemma deleteFileStore_cap (q : FsPath) (ed : Editor) :
    (deleteFileStore q ed).storeHasExistsInMemory = ed.storeHasExistsInMemory := rfl

lemma deleteFileStore_tomb_self (q : FsPath) (ed : Editor) :
    tombAt (deleteFileStore q ed) q := by
  refine ⟨{ ed.storeGet q with state := .deleted, contents := none }, ?_, rfl, rfl⟩
  have hpath : ({ ed.storeGet q with state := FileState.deleted, contents := none }
      : FileRecord).path = q := storeGet_path ed q
  have := storeAdd_find_self ed.store
    ({ ed.storeGet q with state := .deleted, contents := none })
  rw [hpath] at this
  exact this

lemma deleteFileStore_find_other {x q : FsPath} (ed : Editor) (h : x ≠ q) :
    storeFind (deleteFileStore q ed).store x = storeFind ed.store x := by
  have hpath : ({ ed.storeGet q with state := FileState.deleted, contents := none }
      : FileRecord).path = q := storeGet_path ed q
  exact storeAdd_find_other _ _ (by rw [hpath]; exact h)

lemma tombAt_deleteFileStore {x : FsPath} (q : FsPath) {ed : Editor} (h : tombAt ed x) :
    tombAt (deleteFileStore q ed) x := by
  by_cases hx : x = q
  · subst hx
    exact deleteFileStore_tomb_self x ed
  · obtain ⟨r, h1, h2, h3⟩ := h
    exact ⟨r, by rw [deleteFileStore_find_other ed hx]; exact h1, h2, h3⟩

lemma deleteFileStore_eq_of_tomb {q : FsPath} {ed : Editor} (h : tombAt ed q) :
    deleteFileStore q ed = ed := by
  obtain ⟨r, h1, h2, h3⟩ := h
  have hget : ed.storeGet q = r := by simp [Editor.storeGet, h1]
  have hstep : deleteFileStore q ed =
      { ed with store := storeAdd ed.store { r with state := .deleted, contents := none } } := by
    unfold deleteFileStore
    rw [hget]
  rw [hstep, record_eta h2 h3, storeAdd_of_find_self h1]

lemma deleteFileStore_find_none {x q : FsPath} {ed : Editor}
    (h : storeFind (deleteFileStore q ed).store x = none) :
    storeFind ed.store x = none := by
  by_cases hx : x = q
  · subst hx
    obtain ⟨r, hr, _, _⟩ := deleteFileStore_tomb_self x ed
    rw [hr] at h
    exact absurd h (by simp)
  · rwa [deleteFileStore_find_other ed hx] at h

lemma deleteFileStore_find_nontomb {x q : FsPath} {ed : Editor} {r : FileRecord}
    (h : storeFind (deleteFileStore q ed).store x = some r)
    (hr : ¬ (r.state = FileState.deleted ∧ r.contents = none)) :
    storeFind ed.store x = some r := by
  by_cases hx : x = q
  · subst hx
    obtain ⟨t, ht, ht2, ht3⟩ := deleteFileStore_tomb_self x ed
    rw [ht] at h
    cases h
    exact absurd ⟨ht2, ht3⟩ hr
  · rwa [deleteFileStore_find_other ed hx] at h

lemma mem_paths_storeAdd {x : FsPath} (s : Store) (f : FileRecord) :
    x ∈ (storeAdd s f).map (·.path) ↔ x ∈ s.map (·.path) ∨ x = f.path := by
  induction s with
  | nil => simp [storeAdd_nil]
  | cons r rs ih =>
    by_cases h : r.path = f.path
    · rw [storeAdd_cons, if_pos h]
      simp only [List.map_cons, List.mem_cons, h]
      tauto
    · rw [storeAdd_cons, if_neg h]
      simp only [List.map_cons, List.mem_cons, ih]
      tauto

lemma mem_paths_deleteFileStore {x q : FsPath} {ed : Editor} :
    x ∈ (deleteFileStore q ed).store.map (·.path) ↔
      x ∈ ed.store.map (·.path) ∨ x = q := by
  have hpath : ({ ed.storeGet q with state := FileState.deleted, contents := none }
      : FileRecord).path = q := storeGet_path ed q
  have := mem_paths_storeAdd (x := x) ed.store
    ({ ed.storeGet q with state := .deleted, contents := none })
  rwa [hpath] at this

lemma foldDel_nil (ed : Editor) : foldDel [] ed = ed := rfl

lemma foldDel_cons (p : FsPath) (l : List FsPath) (ed : Editor) :
    foldDel (p :: l) ed = foldDel l (deleteFileStore p ed) := rfl

lemma foldDel_disk (l : List FsPath) : ∀ ed : Editor, (foldDel l ed).disk = ed.disk := by
  induction l with
  | nil => intro ed; rfl
  | cons p t ih =>
    intro ed
    rw [foldDel_cons, ih, deleteFileStore_disk]

lemma foldDel_cap (l : List FsPath) :
    ∀ ed : Editor, (foldDel l ed).storeHasExistsInMemory = ed.storeHasExistsInMemory := by
  induction l with
  | nil => intro ed; rfl
  | cons p t ih =>
    intro ed
    rw [foldDel_cons, ih, deleteFileStore_cap]

lemma tombAt_foldDel {x : FsPath} (l : List FsPath) :
    ∀ {ed : Editor}, tombAt ed x → tombAt (foldDel l ed) x := by
  induction l with
  | nil => intro ed h; exact h
  | cons p t ih =>
    intro ed h
    rw [foldDel_cons]
    exact ih (tombAt_deleteFileStore p h)

lemma tombAt_foldDel_mem {x : FsPath} (l : List FsPath) :
    ∀ {ed : Editor}, x ∈ l → tombAt (foldDel l ed) x := by
  induction l with
  | nil => intro ed h; simp at h
  | cons p t ih =>
    intro ed h
    rw [foldDel_cons]
    rcases List.mem_cons.mp h with h | h
    · subst h
      exact tombAt_foldDel t (deleteFileStore_tomb_self x ed)
    · exact ih h

lemma foldDel_eq_of_tombs (l : List FsPath) :
    ∀ {ed : Editor}, (∀ x ∈ l, tombAt ed x) → foldDel l ed = ed := by
  induction l with
  | nil => intro ed _; rfl
  | cons p t ih =>
    intro ed h
    rw [foldDel_cons, deleteFileStore_eq_of_tomb (h p (List.mem_cons_self p t))]
    exact ih fun x hx => h x (List.mem_cons_of_mem p hx)

lemma foldDel_find_none (l : List FsPath) :
    ∀ {ed : Editor} {x : FsPath}, storeFind (foldDel l ed).store x = none →
      storeFind ed.store x = none := by
  induction l with
  | nil => intro ed x h; exact h
  | cons p t ih =>
    intro ed x h
    rw [foldDel_cons] at h
    exact deleteFileStore_find_none (ih h)

lemma foldDel_find_nontomb (l : List FsPath) :
    ∀ {ed : Editor} {x : FsPath} {r : FileRecord},
      storeFind (foldDel l ed).store x = some r →
      ¬ (r.state = FileState.deleted ∧ r.contents = none) →
      storeFind ed.store x = some r := by
  induction l with
  | nil => intro ed x r h _; exact h
  | cons p t ih =>
    intro ed x r h hr
    rw [foldDel_cons] at h
    exact deleteFileStore_find_nontomb (ih h hr) hr

lemma mem_paths_foldDel (l : List FsPath) :
    ∀ {ed : Editor} {x : FsPath},
      x ∈ (foldDel l ed).store.map (·.path) ↔ x ∈ ed.store.map (·.path) ∨ x ∈ l := by
  induction l with
  | nil => intro ed x; simp [foldDel_nil]
  | cons p t ih =>
    intro ed x
    rw [foldDel_cons, ih, mem_paths_deleteFileStore, List.mem_cons]
    tauto

lemma mem_dedupKeepFirstAux {x : FsPath} :
    ∀ {l seen : List FsPath}, x ∈ dedupKeepFirstAux seen l ↔ x ∈ l ∧ x ∉ seen := by
  intro l
  induction l with
  | nil => intro seen; simp [dedupKeepFirstAux]
  | cons p ps ih =>
    intro seen
    by_cases hs : seen.contains p
    · have hp : p ∈ seen := List.elem_iff.mp hs
      have hxp : x = p → x ∈ seen := fun h => h ▸ hp
      rw [dedupKeepFirstAux, if_pos hs, ih]
      simp only [List.mem_cons]
      tauto
    · have hp : p ∉ seen := fun hmem => hs (List.elem_iff.mpr hmem)
      have hxp : x = p → x ∉ seen := fun h => h ▸ hp
      rw [dedupKeepFirstAux, if_neg hs]
      simp only [List.mem_cons, ih]
      tauto

lemma mem_dedupKeepFirst {x : FsPath} {l : List FsPath} :
    x ∈ dedupKeepFirst l ↔ x ∈ l := by
  simp [dedupKeepFirst, mem_dedupKeepFirstAux]

lemma mem_notFoundOf {ed : Editor} {ps : List FsPath} {q : FsPath} :
    q ∈ notFoundOf ed ps ↔ q ∈ ps ∧ isNotFoundTarget ed q = true := by
  simp [notFoundOf, mem_dedupKeepFirst, List.mem_filter]

lemma mem_onStoreFilesOf {ed : Editor} {ps : List FsPath} {q : FsPath} :
    q ∈ onStoreFilesOf ed ps ↔ q ∈ ps ∧ isOnStoreTarget ed q = true := by
  simp [onStoreFilesOf, mem_dedupKeepFirst, List.mem_filter]

lemma mem_globbySearch {pats : List FsPath} {d : Disk} {x : FsPath} :
    x ∈ globbySearch pats d ↔
      ∃ f ∈ d.files, f.path = x ∧ multimatchAny x pats = true := by
  simp only [globbySearch, List.mem_map, List.mem_filter]
  constructor
  · rintro ⟨f, ⟨hf, hm⟩, rfl⟩
    exact ⟨f, hf, rfl, hm⟩
  · rintro ⟨f, hf, rfl, hm⟩
    exact ⟨f, ⟨hf, hm⟩, rfl⟩

lemma multimatchAny_mono {x : FsPath} {p1 p2 : List FsPath}
    (hsub : ∀ q ∈ p2, q ∈ p1) (h : multimatchAny x p2 = true) :
    multimatchAny x p1 = true := by
  simp only [multimatchAny, List.any_eq_true] at h ⊢
  obtain ⟨q, hq, hm⟩ := h
  exact ⟨q, hsub q hq, hm⟩

lemma deleteCore_eq (ed : Editor) (ps : List FsPath) :
    deleteCore ed ps =
      foldDel (onStoreFilesOf ed ps)
        (foldDel
          (((foldDel ((globbySearch ((notFoundOf ed ps).map globify) ed.disk).map resolvePath)
              ed).store.map (·.path)).filter
            fun p => multimatchAny (normalizePath p) ((notFoundOf ed ps).map globify))
          (foldDel ((globbySearch ((notFoundOf ed ps).map globify) ed.disk).map resolvePath)
            ed)) := rfl

lemma deleteCore_idem (ed : Editor) (ps : List FsPath) :
    deleteCore (deleteCore ed ps) ps = deleteCore ed ps := by
  set pats1 := (notFoundOf ed ps).map globify with hpats1
  set F1 := (globbySearch pats1 ed.disk).map resolvePath with hF1
  set eda := foldDel F1 ed with heda
  set M1 := ((eda.store.map (·.path)).filter
    fun p => multimatchAny (normalizePath p) pats1) with hM1
  set edb := foldDel M1 eda with hedb
  set os1 := onStoreFilesOf ed ps with hos1
  set ed1 := foldDel os1 edb with hed1
  have hcore : deleteCore ed ps = ed1 := rfl
  -- every target of run 1 is tombstoned in its result
  have hT_F : ∀ x ∈ F1, tombAt ed1 x := fun x hx =>
    tombAt_foldDel os1 (tombAt_foldDel M1 (tombAt_foldDel_mem F1 hx))
  have hT_M : ∀ x ∈ M1, tombAt ed1 x := fun x hx =>
    tombAt_foldDel os1 (tombAt_foldDel_mem M1 hx)
  have hT_os : ∀ x ∈ os1, tombAt ed1 x := fun x hx => tombAt_foldDel_mem os1 hx
  have hdisk : ed1.disk = ed.disk := by
    rw [hed1, foldDel_disk, hedb, foldDel_disk, heda, foldDel_disk]
  have hcap : ed1.storeHasExistsInMemory = ed.storeHasExistsInMemory := by
    rw [hed1, foldDel_cap, hedb, foldDel_cap, heda, foldDel_cap]
  -- transport of non-tombstone records and of absence back to run-1 input
  have hfind_nt : ∀ {x : FsPath} {r : FileRecord}, storeFind ed1.store x = some r →
      ¬ (r.state = FileState.deleted ∧ r.contents = none) →
      storeFind ed.store x = some r := by
    intro x r h hr
    rw [hed1] at h
    have h2 := foldDel_find_nontomb os1 h hr
    rw [hedb] at h2
    have h3 := foldDel_find_nontomb M1 h2 hr
    rw [heda] at h3
    exact foldDel_find_nontomb F1 h3 hr
  have hfind_none : ∀ {x : FsPath}, storeFind ed1.store x = none →
      storeFind ed.store x = none := by
    intro x h
    rw [hed1] at h
    have h2 := foldDel_find_none os1 h
    rw [hedb] at h2
    have h3 := foldDel_find_none M1 h2
    rw [heda] at h3
    exact foldDel_find_none F1 h3
  -- run 2 finds no direct on-store targets
  have hons2 : onStoreFilesOf ed1 ps = [] := by
    unfold onStoreFilesOf
    have hfil : ps.filter (fun p => isOnStoreTarget ed1 p) = [] := by
      rw [List.filter_eq_nil_iff]
      intro p hp htar
      simp only [isOnStoreTarget, Bool.and_eq_true] at htar
      obtain ⟨hq, hmatch⟩ := htar
      cases hfind : storeFind ed1.store p with
      | none => rw [hfind] at hmatch; simp at hmatch
      | some r =>
        rw [hfind] at hmatch
        have hsome : r.contents.isSome = true := hmatch
        have hr : ¬ (r.state = FileState.deleted ∧ r.contents = none) := by
          rintro ⟨_, hc⟩
          rw [hc] at hsome
          simp at hsome
        have hed : storeFind ed.store p = some r := hfind_nt hfind hr
        have hcaptrue : ed.storeHasExistsInMemory = true := by
          rw [← hcap]
          simp only [Editor.existsInMemoryQ, Bool.and_eq_true] at hq
          exact hq.1
        have htar0 : isOnStoreTarget ed p = true := by
          simp [isOnStoreTarget, Editor.existsInMemoryQ, hed, hsome, hcaptrue]
        have hmem : p ∈ os1 := by
          rw [hos1]
          exact mem_onStoreFilesOf.mpr ⟨hp, htar0⟩
        obtain ⟨t, ht, hts, htc⟩ := hT_os p hmem
        rw [hfind] at ht
        cases ht
        rw [htc] at hsome
        simp at hsome
    rw [hfil]
    rfl
  -- run-2 not-found paths were already not-found in run 1
  have hnf2 : ∀ q ∈ notFoundOf ed1 ps, q ∈ notFoundOf ed ps := by
    intro q hq
    rw [mem_notFoundOf] at hq ⊢
    obtain ⟨hqps, htar⟩ := hq
    refine ⟨hqps, ?_⟩
    by_cases hcapb : ed.storeHasExistsInMemory = true
    · cases hfind : storeFind ed1.store q with
      | none =>
        have : storeFind ed.store q = none := hfind_none hfind
        simp [isNotFoundTarget, Editor.existsInMemoryQ, this]
      | some r =>
        have hq1 : ed1.existsInMemoryQ q = true := by
          simp [Editor.existsInMemoryQ, hfind, hcap, hcapb]
        rw [isNotFoundTarget, hfind] at htar
        simp only [hq1, Bool.not_true, Bool.false_or] at htar
        simp only [Bool.and_eq_true] at htar
        obtain ⟨hcn, hst⟩ := htar
        have hcn2 : r.contents = none := by
          cases hc : r.contents with
          | none => rfl
          | some v => rw [hc] at hcn; simp at hcn
        have hst2 : ¬ r.state = FileState.deleted := by
          intro hc
          rw [Bool.not_eq_true', decide_eq_false_iff_not] at hst
          exact hst hc
        have hnt : ¬ (r.state = FileState.deleted ∧ r.contents = none) :=
          fun hc => hst2 hc.1
        have hed : storeFind ed.store q = some r := hfind_nt hfind hnt
        simp [isNotFoundTarget, hed, hcn2, hst2]
    · have hcapf : ed.storeHasExistsInMemory = false := by simpa using hcapb
      simp [isNotFoundTarget, Editor.existsInMemoryQ, hcapf]
  have hpats_sub : ∀ x : FsPath,
      multimatchAny x ((notFoundOf ed1 ps).map globify) = true →
      multimatchAny x pats1 = true := by
    intro x hx
    refine multimatchAny_mono ?_ hx
    intro q hq
    rw [map_globify] at hq
    rw [hpats1, map_globify]
    exact hnf2 q hq
  -- run-2 disk targets are tombstoned already
  have hstage1 : foldDel
      ((globbySearch ((notFoundOf ed1 ps).map globify) ed1.disk).map resolvePath) ed1 = ed1 := by
    refine foldDel_eq_of_tombs _ ?_
    intro x hx
    rw [map_resolvePath, hdisk, mem_globbySearch] at hx
    obtain ⟨f, hf, hfp, hm⟩ := hx
    have hm1 : multimatchAny x pats1 = true := hpats_sub x hm
    have hxF : x ∈ F1 := by
      rw [hF1, map_resolvePath, mem_globbySearch]
      exact ⟨f, hf, hfp, hm1⟩
    exact hT_F x hxF
  -- run-2 store-scan targets are tombstoned already
  have hstage2 : foldDel
      ((ed1.store.map (·.path)).filter
        fun p => multimatchAny (normalizePath p) ((notFoundOf ed1 ps).map globify)) ed1 = ed1 := by
    refine foldDel_eq_of_tombs _ ?_
    intro x hx
    rw [List.mem_filter] at hx
    obtain ⟨hxp, hxm⟩ := hx
    have hm1 : multimatchAny x pats1 = true := hpats_sub x (by simpa using hxm)
    have hxp2 : x ∈ edb.store.map (·.path) ∨ x ∈ os1 := by
      rw [hed1] at hxp
      exact (mem_paths_foldDel os1).mp hxp
    rcases hxp2 with hxb | hxo
    · rw [hedb] at hxb
      rcases (mem_paths_foldDel M1).mp hxb with hxa | hxm1
      · have hxM : x ∈ M1 := by
          rw [hM1, List.mem_filter]
          exact ⟨hxa, by simpa using hm1⟩
        exact hT_M x hxM
      · exact hT_M x hxm1
    · exact hT_os x hxo
  rw [hcore, deleteCore_eq ed1 ps, hstage1, hstage2, hons2, foldDel_nil]

/-- Claim C6: deleting the same paths twice leaves the store exactly as one
delete does, and the second call raises no error — every record the second
pass would touch is already tombstoned (state `deleted`, null contents) and
is skipped rather than re-deleted or reported. -/
theorem claim6_delete_idempotent (ed : Editor) (ps : List FsPath) :
    deleteAction ed ps = .ok (deleteCore ed ps) ∧
    deleteAction (deleteCore ed ps) ps = .ok (deleteCore ed ps) := by
  refine ⟨rfl, ?_⟩
  show Except.ok (deleteCore (deleteCore ed ps) ps) = Except.ok (deleteCore ed ps)
  rw [deleteCore_idem ed ps]

/-! ## Claims C7 and C8: delete never fails on zero matches -/

lemma deleteCore_eq_self_of_noCandidates {ed : Editor} {ps : List FsPath}
    (h : deleteNoCandidates ed ps) : deleteCore ed ps = ed := by
  obtain ⟨h1, h2, h3⟩ := h
  rw [deleteCore_eq, h1, h2]
  simp only [List.map_nil, foldDel_nil]
  rw [h3, foldDel_nil]

/-- Claim C7: delete raises an error only for structurally invalid input
(unrepresentable in the typed embedding), never because zero files matched —
with no in-store, on-disk, or store-scan candidate, the delete action
returns successfully and leaves the editor unchanged. -/
theorem claim7_no_match_silent (ed : Editor) (ps : List FsPath)
    (h : deleteNoCandidates ed ps) : deleteAction ed ps = .ok ed := by
  show Except.ok (deleteCore ed ps) = Except.ok ed
  rw [deleteCore_eq_self_of_noCandidates h]

/-- Witness for C7 at `keepEditor`. -/
theorem claim7_witness :
    deleteNoCandidates keepEditor ["/gone.txt"] ∧
    deleteAction keepEditor ["/gone.txt"] = .ok keepEditor :=
  ⟨by decide, claim7_no_match_silent keepEditor ["/gone.txt"] (by decide)⟩

/-- Counterexample to claim C8 as stated: deleting the glob pattern `*.zzz`,
which matches zero files on disk and in the store, does not fail — the
caller cannot even set `ignoreNoMatch` on delete (its options carry only
glob options) — and the operation completes as a silent no-op. -/
theorem claim8_counterexample :
    isDynamicPattern "*.zzz" = true ∧
    globbySearch ["*.zzz"] emptyEditor.disk = [] ∧
    deleteAction emptyEditor ["*.zzz"] = .ok emptyEditor := by
  refine ⟨by decide, by decide, ?_⟩
  show Except.ok (deleteCore emptyEditor ["*.zzz"]) = Except.ok emptyEditor
  rw [show deleteCore emptyEditor ["*.zzz"] = emptyEditor by decide]

/-- Claim C8 (amended): deleting a glob pattern that matches zero files on
disk and against the store never fails, with or without any option — the
delete action has no `ignoreNoMatch` option and a zero-match pattern is
always a silent no-op. -/
theorem claim8_zero_match_noop (ed : Editor) (pat : FsPath)
    (_h1 : isDynamicPattern pat = true) (h2 : deleteNoCandidates ed [pat]) :
    deleteAction ed [pat] = .ok ed := by
  show Except.ok (deleteCore ed [pat]) = Except.ok ed
  rw [deleteCore_eq_self_of_noCandidates h2]

/-- Witness for C8 (amended) at `keepEditor`. -/
theorem claim8_witness :
    isDynamicPattern "*.zzz" = true ∧ deleteNoCandidates keepEditor ["*.zzz"] ∧
    deleteAction keepEditor ["*.zzz"] = .ok keepEditor :=
  ⟨by decide, by decide, claim8_zero_match_noop keepEditor "*.zzz" (by decide) (by decide)⟩

/-! ## Claim C9: commit reconciliation -/

lemma find?_path_map_update (files : List DiskFile) (p : FsPath) (tr : DiskFile → DiskFile)
    (htr : ∀ f, (tr f).path = f.path) :
    List.find? (fun f => f.path = p) (files.map fun g => if g.path = p then tr g else g) =
      (List.find? (fun f => f.path = p) files).map tr := by
  induction files with
  | nil => rfl
  | cons g gs ih =>
    by_cases hg : g.path = p
    · simp [List.find?_cons, hg, htr g]
    · simp [List.find?_cons, hg, ih]

lemma find?_path_map_update_other (files : List DiskFile) (p : FsPath)
    (tr : DiskFile → DiskFile) (htr : ∀ f, (tr f).path = f.path) {a : FsPath} (ha : a ≠ p) :
    List.find? (fun f => f.path = a) (files.map fun g => if g.path = p then tr g else g) =
      List.find? (fun f => f.path = a) files := by
  have hpa : ¬ p = a := fun hc => ha hc.symm
  have hap : ¬ a = p := ha
  induction files with
  | nil => rfl
  | cons g gs ih =>
    by_cases hg : g.path = p
    · have h1 : ¬ (tr g).path = a := by
        rw [htr g, hg]
        exact hpa
      have h2 : ¬ g.path = a := by
        rw [hg]
        exact hpa
      simp [List.find?_cons, hg, h1, h2, ih, hpa, hap]
    · by_cases hga : g.path = a
      · simp [List.find?_cons, hg, hga, hpa, hap]
      · simp [List.find?_cons, hg, hga, ih, hpa, hap]

lemma find?_append_left {l1 l2 : List DiskFile} {p : DiskFile → Bool} {v : DiskFile}
    (h : l1.find? p = some v) : (l1 ++ l2).find? p = some v := by
  induction l1 with
  | nil => simp at h
  | cons g gs ih =>
    rw [List.find?_cons] at h
    cases hpg : p g with
    | true =>
      rw [hpg] at h
      simpa [List.find?_cons, hpg] using h
    | false =>
      rw [hpg] at h
      simpa [List.find?_cons, hpg] using ih h

lemma find?_append_elem {l : List DiskFile} {x : DiskFile} {p : DiskFile → Bool}
    (hl : l.find? p = none) : (l ++ [x]).find? p = List.find? p [x] := by
  induction l with
  | nil => rfl
  | cons g gs ih =>
    rw [List.find?_cons] at hl
    cases hpg : p g with
    | true => rw [hpg] at hl; simp at hl
    | false =>
      rw [hpg] at hl
      simpa [List.find?_cons, hpg] using ih hl

lemma writeFile_dirs (d : Disk) (p : FsPath) (c : Contents) :
    (d.writeFile p c).dirs = d.dirs := rfl

lemma chmod_dirs (d : Disk) (p : FsPath) (m : Nat) : (d.chmod p m).dirs = d.dirs := rfl

lemma mkdirpDirs_files (d : Disk) (p : FsPath) : (mkdirpDirs d p).files = d.files := rfl

lemma mkdirpDirs_findFile (d : Disk) (p q : FsPath) :
    (mkdirpDirs d p).findFile q = d.findFile q := rfl

lemma modeOf_writeFile_self (d : Disk) (p : FsPath) (c : Contents) :
    (d.writeFile p c).modeOf p = some ((d.modeOf p).getD 0o644) := by
  unfold Disk.writeFile Disk.modeOf Disk.findFile
  by_cases h : (List.find? (fun f => f.path = p) d.files).isSome
  · simp only [Disk.findFile, h, if_true]
    rw [find?_path_map_update d.files p (fun g => { g with contents := c }) (fun f => rfl)]
    obtain ⟨f, hf⟩ := Option.isSome_iff_exists.mp h
    rw [hf]
    simp
  · have h0 : List.find? (fun f => f.path = p) d.files = none := by
      cases hc : List.find? (fun f => f.path = p) d.files with
      | none => rfl
      | some v => rw [hc] at h; simp at h
    simp only [Disk.findFile, h0, Option.isSome_none, Bool.false_eq_true, if_false]
    rw [find?_append_elem h0]
    simp [List.find?_cons]

lemma modeOf_chmod_self (d : Disk) (p : FsPath) (m : Nat) (h : (d.findFile p).isSome) :
    (d.chmod p m).modeOf p = some m := by
  unfold Disk.chmod Disk.modeOf Disk.findFile
  rw [find?_path_map_update d.files p (fun g => { g with mode := m }) (fun f => rfl)]
  obtain ⟨f, hf⟩ := Option.isSome_iff_exists.mp (by
    unfold Disk.findFile at h
    exact h)
  rw [hf]
  simp

lemma hasFile_writeFile_other (d : Disk) (p : FsPath) (c : Contents) {a : FsPath} (ha : a ≠ p) :
    (d.writeFile p c).hasFile a = d.hasFile a := by
  unfold Disk.writeFile Disk.hasFile Disk.findFile
  by_cases h : (List.find? (fun f => f.path = p) d.files).isSome
  · simp only [Disk.findFile, h, if_true]
    rw [find?_path_map_update_other d.files p (fun g => { g with contents := c })
      (fun f => rfl) ha]
  · have h0 : List.find? (fun f => f.path = p) d.files = none := by
      cases hc : List.find? (fun f => f.path = p) d.files with
      | none => rfl
      | some v => rw [hc] at h; simp at h
    simp only [Disk.findFile, h0, Option.isSome_none, Bool.false_eq_true, if_false]
    have : List.find? (fun f => f.path = a) (d.files ++
        [{ path := p, contents := c, mode := 0o644 }]) =
        List.find? (fun f => f.path = a) d.files := by
      cases hc : List.find? (fun f => f.path = a) d.files with
      | some v => exact find?_append_left hc
      | none =>
        rw [find?_append_elem hc]
        simp [List.find?_cons, show ¬ p = a from fun hc2 => ha hc2.symm]
    rw [this]

lemma hasFile_chmod_other (d : Disk) (p : FsPath) (m : Nat) {a : FsPath} (ha : a ≠ p) :
    (d.chmod p m).hasFile a = d.hasFile a := by
  unfold Disk.chmod Disk.hasFile Disk.findFile
  rw [find?_path_map_update_other d.files p (fun g => { g with mode := m }) (fun f => rfl) ha]

lemma contains_eq_false {l : List FsPath} {x : FsPath} (h : x ∉ l) : l.contains x = false :=
  Bool.eq_false_iff.mpr fun hq => h (List.elem_iff.mp hq)

/-- Claim C9: committing a record with state `unmodified` performs zero disk
writes and zero store mutations, returning disk and record unchanged;
committing a `modified` record writes once and resets its state, so
committing the returned record again is a complete no-op, and recommitting
the same still-modified record against the written disk (as the tests do)
performs zero mode-change syscalls because the on-disk permission mode is
already the record's mode. -/
theorem claim9_commit_noop_and_mode (disk : Disk) (r : FileRecord) (c : Contents)
    (m : Nat) (d1 : Disk) (r1 : FileRecord) (l1 : CommitLog) :
    (r.state = .unmodified → commitFile disk r = .ok (disk, r, CommitLog.zero)) ∧
    (r.state = .modified → r.contents = some c → r.statMode = some m →
      disk.isDir r.path = false →
      ((ancestorsOf r.path).all fun a => !disk.hasFile a) = true →
      (ancestorsOf r.path).contains r.path = false →
      commitFile disk r = .ok (d1, r1, l1) →
      l1.writes = 1 ∧ r1.state = .unmodified ∧
      commitFile d1 r1 = .ok (d1, r1, CommitLog.zero) ∧
      commitChmods (commitFile d1 r) = some 0) := by
  constructor
  · intro h
    simp [commitFile, h]
  · intro hst hc hm hdir hanc hnotself hcommit
    have hnot_dirs : r.path ∉ disk.dirs :=
      fun hmem => (Bool.eq_false_iff.mp hdir) (List.elem_iff.mpr hmem)
    have hnot_anc : r.path ∉ ancestorsOf r.path :=
      fun hmem => (Bool.eq_false_iff.mp hnotself) (List.elem_iff.mpr hmem)
    have hanc2 : ((ancestorsOf r.path).any fun a => disk.hasFile a) = false := by
      rw [List.any_eq_false]
      intro a haa
      have h2 := List.all_eq_true.mp hanc a haa
      simp only [Bool.not_eq_true'] at h2
      simp [h2]
    have hancfile : ∀ a ∈ ancestorsOf r.path, disk.hasFile a = false := by
      intro a haa
      have h2 := List.all_eq_true.mp hanc a haa
      simpa using h2
    simp only [commitFile, hst, hc, hm, hdir, hanc2, Bool.false_eq_true, if_false] at hcommit
    have hWmode := modeOf_writeFile_self (mkdirpDirs disk r.path) r.path c
    split at hcommit
    case isTrue hcur =>
      simp only [Except.ok.injEq, Prod.mk.injEq] at hcommit
      obtain ⟨h1, h2, h3⟩ := hcommit
      subst h1
      subst h2
      subst h3
      have hWsome : (((mkdirpDirs disk r.path).writeFile r.path c).findFile r.path).isSome := by
        unfold Disk.modeOf at hWmode
        cases hf : ((mkdirpDirs disk r.path).writeFile r.path c).findFile r.path with
        | none => rw [hf] at hWmode; simp at hWmode
        | some v => simp
      have hd1mode : ((((mkdirpDirs disk r.path).writeFile r.path c).chmod r.path m).modeOf
          r.path) = some m :=
        modeOf_chmod_self _ r.path m hWsome
      have hdirs1 : ((((mkdirpDirs disk r.path).writeFile r.path c).chmod r.path m).isDir
          r.path) = false := by
        show (disk.dirs ++ ((ancestorsOf r.path).filter
          fun a => !disk.dirs.contains a)).contains r.path = false
        apply contains_eq_false
        intro hmem
        rcases List.mem_append.mp hmem with hmem | hmem
        · exact hnot_dirs hmem
        · exact hnot_anc (List.mem_of_mem_filter hmem)
      have hanc3 : ((ancestorsOf r.path).any fun a =>
          ((((mkdirpDirs disk r.path).writeFile r.path c).chmod r.path m).hasFile a)) = false := by
        rw [List.any_eq_false]
        intro a haa
        have hane : a ≠ r.path := fun hcq => hnot_anc (hcq ▸ haa)
        rw [hasFile_chmod_other _ _ _ hane, hasFile_writeFile_other _ _ _ hane]
        have := hancfile a haa
        simp [Disk.hasFile, Disk.findFile] at this ⊢
        exact this
      have hw2 : (((mkdirpDirs (((mkdirpDirs disk r.path).writeFile r.path c).chmod r.path m)
          r.path).writeFile r.path c).modeOf r.path) = some m := by
        rw [modeOf_writeFile_self]
        show some (((((mkdirpDirs disk r.path).writeFile r.path c).chmod r.path m).modeOf
          r.path).getD 0o644) = some m
        rw [hd1mode]
        rfl
      refine ⟨rfl, rfl, rfl, ?_⟩
      simp [commitChmods, commitFile, hst, hc, hm, hdirs1, hanc3, hw2]
    case isFalse hcur =>
      simp only [Except.ok.injEq, Prod.mk.injEq] at hcommit
      obtain ⟨h1, h2, h3⟩ := hcommit
      subst h1
      subst h2
      subst h3
      have hcur2 : ((((mkdirpDirs disk r.path).writeFile r.path c).modeOf r.path).getD 0o644)
          = m := by
        by_contra hq
        exact hcur hq
      have hd1mode : (((mkdirpDirs disk r.path).writeFile r.path c).modeOf r.path) = some m := by
        rw [hWmode] at hcur2 ⊢
        simp only [Option.getD_some] at hcur2
        rw [hcur2]
      have hdirs1 : (((mkdirpDirs disk r.path).writeFile r.path c).isDir r.path) = false := by
        show (disk.dirs ++ ((ancestorsOf r.path).filter
          fun a => !disk.dirs.contains a)).contains r.path = false
        apply contains_eq_false
        intro hmem
        rcases List.mem_append.mp hmem with hmem | hmem
        · exact hnot_dirs hmem
        · exact hnot_anc (List.mem_of_mem_filter hmem)
      have hanc3 : ((ancestorsOf r.path).any fun a =>
          (((mkdirpDirs disk r.path).writeFile r.path c).hasFile a)) = false := by
        rw [List.any_eq_false]
        intro a haa
        have hane : a ≠ r.path := fun hcq => hnot_anc (hcq ▸ haa)
        rw [hasFile_writeFile_other _ _ _ hane]
        have := hancfile a haa
        simp [Disk.hasFile, Disk.findFile] at this ⊢
        exact this
      have hw2 : (((mkdirpDirs ((mkdirpDirs disk r.path).writeFile r.path c)
          r.path).writeFile r.path c).modeOf r.path) = some m := by
        rw [modeOf_writeFile_self]
        show some ((((mkdirpDirs disk r.path).writeFile r.path c).modeOf r.path).getD 0o644)
          = some m
        rw [hd1mode]
        rfl
      refine ⟨rfl, rfl, rfl, ?_⟩
      simp [commitChmods, commitFile, hst, hc, hm, hdirs1, hanc3, hw2]

/-- Witness for C9: committing `modeRecord` onto an empty disk writes once
with a chmod to `0o600`, and the follow-up commits behave as claimed. -/
theorem claim9_witness :
    modeRecord.state = .modified ∧ modeRecord.contents = some "c" ∧
    modeRecord.statMode = some 384 ∧
    commitFile { files := [], dirs := [] } modeRecord =
      .ok ({ files := [{ path := "/out/f.txt", contents := "c", mode := 384 }],
              dirs := ["", "/out"] },
           { path := "/out/f.txt", contents := some "c", state := .unmodified,
             history := ["/out/f.txt"], statMode := some 384 },
           { writes := 1, chmods := 1, unlinks := 0, storeMutations := 1 }) ∧
    (({ writes := 1, chmods := 1, unlinks := 0, storeMutations := 1 } : CommitLog).writes = 1 ∧
      ({ path := "/out/f.txt", contents := some "c", state := .unmodified,
         history := ["/out/f.txt"], statMode := some 384 } : FileRecord).state = .unmodified ∧
      commitFile
          { files := [{ path := "/out/f.txt", contents := "c", mode := 384 }],
            dirs := ["", "/out"] }
          { path := "/out/f.txt", contents := some "c", state := .unmodified,
            history := ["/out/f.txt"], statMode := some 384 } =
        .ok ({ files := [{ path := "/out/f.txt", contents := "c", mode := 384 }],
                dirs := ["", "/out"] },
             { path := "/out/f.txt", contents := some "c", state := .unmodified,
               history := ["/out/f.txt"], statMode := some 384 }, CommitLog.zero) ∧
      commitChmods (commitFile
          { files := [{ path := "/out/f.txt", contents := "c", mode := 384 }],
            dirs := ["", "/out"] }
          modeRecord) = some 0) :=
  ⟨rfl, rfl, rfl, rfl,
    (claim9_commit_noop_and_mode { files := [], dirs := [] } modeRecord "c" 384
        { files := [{ path := "/out/f.txt", contents := "c", mode := 384 }],
          dirs := ["", "/out"] }
        { path := "/out/f.txt", contents := some "c", state := .unmodified,
          history := ["/out/f.txt"], statMode := some 384 }
        { writes := 1, chmods := 1, unlinks := 0, storeMutations := 1 }).2
      rfl rfl rfl (by decide) (by decide) (by decide) rfl⟩
